import Mathlib

/-!
Shallow embedding of the i18n-tooling unified-diff parsers.

Lines of a patch are modelled as lists of characters (`Line`); a raw patch
string is split on the newline character exactly as JavaScript
`String.prototype.split('\n')` does.  The two regular expressions used by the
source are embedded as deterministic parsers over character lists (their
backtracking is provably deterministic for these patterns: a greedy digit run
is never shortened successfully, and an optional comma is consumed exactly in
the cases analysed in the definitions below).
-/

/-- A physical line of a patch, as a list of characters. -/
abbrev Line := List Char

/-- Shorthand turning a Lean string literal into a `Line`. -/
def lit (s : String) : Line := s.toList

/-- JavaScript `String.prototype.split(sep)` for a one-character separator:
the result always has one more piece than there are separators, so the empty
input yields one empty piece. -/
def splitOnChar (sep : Char) : Line → List Line
  | [] => [[]]
  | c :: cs =>
    if c = sep then [] :: splitOnChar sep cs
    else
      match splitOnChar sep cs with
      | [] => [[c]]
      | l :: ls => (c :: l) :: ls

/-- `diffContent.split('\n')` from the source. -/
def splitLines : Line → List Line := splitOnChar '\n'

/-- JavaScript `String.prototype.startsWith`. -/
def startsWith : Line → Line → Bool
  | [], _ => true
  | _ :: _, [] => false
  | p :: ps, c :: cs => p == c && startsWith ps cs

/-- Consume an exact literal at the head of the input, returning the rest. -/
def dropLit : Line → Line → Option Line
  | [], l => some l
  | _ :: _, [] => none
  | p :: ps, c :: cs => if p == c then dropLit ps cs else none

/-- Greedy `\d+` / `\d*`: the maximal digit run and the remaining input. -/
def takeDigits (cs : Line) : Line × Line :=
  (cs.takeWhile Char.isDigit, cs.dropWhile Char.isDigit)

/-- Numeric value of a digit run (JavaScript `parseInt` on a `\d+` capture). -/
def digitsVal (ds : Line) : Nat :=
  ds.foldl (fun n c => 10 * n + (c.toNat - '0'.toNat)) 0

/-- The fragment `(\d+),?(\d+)?` of the anchored hunk-header regex
`^@@ -(\d+),?(\d+)? \+(\d+),?(\d+)? @@`: a mandatory digit run, then an
optional comma which is consumed even when no digits follow it, then an
optional second digit run (the second capture, `none` when absent). -/
def numPairLax (cs : Line) : Option (Nat × Option Nat × Line) :=
  match takeDigits cs with
  | ([], _) => none
  | (d1, []) => some (digitsVal d1, none, [])
  | (d1, c :: r2) =>
    if c = ',' then
      match takeDigits r2 with
      | ([], _) => some (digitsVal d1, none, r2)
      | (d2, r3) => some (digitsVal d1, some (digitsVal d2), r3)
    else some (digitsVal d1, none, c :: r2)

/-- The fragment `(\d+)(?:,\d+)?` (and `\d+(?:,\d+)?`) of the unanchored
hunk-header regex inside part_001's extractor: here the comma is consumed only
together with a following digit run; a bare comma is left in the input. -/
def numPairStrict (cs : Line) : Option (Nat × Option Nat × Line) :=
  match takeDigits cs with
  | ([], _) => none
  | (d1, []) => some (digitsVal d1, none, [])
  | (d1, c :: r2) =>
    if c = ',' then
      match takeDigits r2 with
      | ([], _) => some (digitsVal d1, none, c :: r2)
      | (d2, r3) => some (digitsVal d1, some (digitsVal d2), r3)
    else some (digitsVal d1, none, c :: r2)

/-- Parsed hunk header, as returned by `parseHunkHeader` in part_000,
part_001 and part_002 (all three share the same regex and defaults). -/
structure HunkInfo where
  oldStart : Nat
  oldCount : Nat
  newStart : Nat
  newCount : Nat
deriving DecidableEq

/-- The captures of `header.match(/^@@ -(\d+),?(\d+)? \+(\d+),?(\d+)? @@/)`:
`none` for no match at all, otherwise the four capture groups (trailing text
after the closing `@@` is ignored because the regex is not right-anchored). -/
def matchHunkHeader (l : Line) : Option (Nat × Option Nat × Nat × Option Nat) :=
  Option.bind (dropLit (lit "@@ -") l) fun r1 =>
  Option.bind (numPairLax r1) fun p1 =>
  Option.bind (dropLit (lit " +") p1.2.2) fun r3 =>
  Option.bind (numPairLax r3) fun p2 =>
  Option.bind (dropLit (lit " @@") p2.2.2) fun _ =>
  some (p1.1, p1.2.1, p2.1, p2.2.1)

/-- `parseHunkHeader` from part_000/part_001/part_002: `none` models the
thrown `Invalid hunk header` error; absent counts default to 1. -/
def parseHunkHeader (l : Line) : Option HunkInfo :=
  (matchHunkHeader l).map fun q => ⟨q.1, q.2.1.getD 1, q.2.2.1, q.2.2.2.getD 1⟩

/-- One attempt of part_001's inner regex
`/@@ -\d+(?:,\d+)? \+(\d+)(?:,\d+)? @@/` at the current position, returning
the single capture (the new-file start). -/
def matchInnerAt (l : Line) : Option Nat :=
  Option.bind (dropLit (lit "@@ -") l) fun r1 =>
  Option.bind (numPairStrict r1) fun p1 =>
  Option.bind (dropLit (lit " +") p1.2.2) fun r3 =>
  Option.bind (numPairStrict r3) fun p2 =>
  Option.bind (dropLit (lit " @@") p2.2.2) fun _ =>
  some p2.1

/-- Leftmost match of the unanchored inner regex: try every start position. -/
def searchNewStart : Line → Option Nat
  | [] => none
  | c :: cs =>
    match matchInnerAt (c :: cs) with
    | some n => some n
    | none => searchNewStart cs

/-! ## part_000: `parseDiffLine` and the `parseDiff` state machine -/

/-- The tag assigned by `parseDiffLine`.  In the source's vocabulary
`normal` is an unchanged (context) line, while the catch-all tag for lines
carrying no diff marker is literally called `context`; it plays the role the
specification calls `metadata`. -/
inductive LineType
  | normal
  | deleted
  | added
  | context
deriving DecidableEq

/-- One parsed patch-body line (part_000's object with `type`, `content`,
`oldLine`, `newLine`). -/
structure ParsedLine where
  type : LineType
  content : Line
  oldLine : Option Nat
  newLine : Option Nat
deriving DecidableEq

/-- `parseDiffLine` from part_000 (part_001/part_002 carry the same function
without the two line-number fields). -/
def parseDiffLine (line : Line) : ParsedLine :=
  if startsWith (lit " ") line then ⟨.normal, line.drop 1, none, none⟩
  else if startsWith (lit "-") line then ⟨.deleted, line.drop 1, none, none⟩
  else if startsWith (lit "+") line then ⟨.added, line.drop 1, none, none⟩
  else ⟨.context, line, none, none⟩

/-- An entry of `currentFile.lineMappings` (pushed only for added lines). -/
structure Mapping where
  relativeLine : Nat
  newLine : Option Nat
  content : Line
  type : LineType
deriving DecidableEq

/-- A hunk record of `parseDiff`. -/
structure Hunk where
  header : HunkInfo
  changes : List ParsedLine
  relativeLineStart : Nat
deriving DecidableEq

/-- A file record of `parseDiff`. -/
structure FileEntry where
  filename : Line
  hunks : List Hunk
  lineMappings : List Mapping
deriving DecidableEq

/-- The mutable state of `parseDiff`'s loop. -/
structure PDState where
  files : List FileEntry
  currentFile : Option FileEntry
  currentHunk : Option Hunk
  relativeLine : Nat
deriving DecidableEq

/-- `changes.filter(c => c.type === 'normal' || c.type === 'deleted').length` -/
def countND (cs : List ParsedLine) : Nat :=
  (cs.filter fun c => c.type == .normal || c.type == .deleted).length

/-- `changes.filter(c => c.type === 'normal' || c.type === 'added').length` -/
def countNA (cs : List ParsedLine) : Nat :=
  (cs.filter fun c => c.type == .normal || c.type == .added).length

/-- The file-header / metadata skip of `parseDiff` (lines 124-128). -/
def isMetaLine (l : Line) : Bool :=
  startsWith (lit "---") l || startsWith (lit "+++") l ||
  startsWith (lit "index ") l || startsWith (lit "From ") l ||
  startsWith (lit "Date: ") l || startsWith (lit "Subject: ") l

/-- One iteration of `parseDiff`'s loop over a physical line.  `Except.error`
models the two ways the loop can throw: the `Invalid hunk header` error and
the crash of `line.split(' ')[2].substring(2)` when a `diff --git` line has
fewer than three space-separated tokens.  Note that on a `diff --git` line
the open `currentHunk` is discarded without being appended to the closed
file, exactly as in the source. -/
def parseDiffStep (s : PDState) (line : Line) : Except Line PDState :=
  if startsWith (lit "diff --git") line then
    match (splitOnChar ' ' line).get? 2 with
    | none => .error line
    | some tok =>
      .ok ⟨s.files ++ s.currentFile.toList, some ⟨tok.drop 2, [], []⟩, none, 0⟩
  else if startsWith (lit "@@") line then
    match s.currentFile with
    | none => .ok s
    | some cf =>
      match parseHunkHeader line with
      | none => .error line
      | some info =>
        let cf' := match s.currentHunk with
          | some h => { cf with hunks := cf.hunks ++ [h] }
          | none => cf
        .ok ⟨s.files, some cf', some ⟨info, [], s.relativeLine⟩, s.relativeLine⟩
  else if isMetaLine line then .ok s
  else
    match s.currentHunk with
    | none => .ok s
    | some ch =>
      if startsWith (lit " ") line || startsWith (lit "-") line ||
          startsWith (lit "+") line then
        match s.currentFile with
        | none => .error line
        | some cf =>
          let pl := parseDiffLine line
          match pl.type with
          | .normal =>
            let pl' := { pl with
              oldLine := some (ch.header.oldStart + countND ch.changes),
              newLine := some (ch.header.newStart + countNA ch.changes) }
            .ok ⟨s.files, some cf,
                 some { ch with changes := ch.changes ++ [pl'] }, s.relativeLine + 1⟩
          | .deleted =>
            let pl' := { pl with
              oldLine := some (ch.header.oldStart + countND ch.changes) }
            .ok ⟨s.files, some cf,
                 some { ch with changes := ch.changes ++ [pl'] }, s.relativeLine⟩
          | .added =>
            let pl' := { pl with
              newLine := some (ch.header.newStart + countNA ch.changes) }
            .ok ⟨s.files,
                 some { cf with lineMappings := cf.lineMappings ++
                   [⟨s.relativeLine + 1, pl'.newLine, pl'.content, .added⟩] },
                 some { ch with changes := ch.changes ++ [pl'] }, s.relativeLine + 1⟩
          | .context => .ok s
      else .ok s

/-- End-of-input close-out of `parseDiff` (lines 161-167). -/
def parseDiffFinal (s : PDState) : List FileEntry :=
  match s.currentFile with
  | none => s.files
  | some cf =>
    match s.currentHunk with
    | some h => s.files ++ [{ cf with hunks := cf.hunks ++ [h] }]
    | none => s.files ++ [cf]

/-- The loop of `parseDiff`; a thrown error aborts the whole call. -/
def parseDiffGo : PDState → List Line → Except Line (List FileEntry)
  | s, [] => .ok (parseDiffFinal s)
  | s, l :: ls =>
    match parseDiffStep s l with
    | .error e => .error e
    | .ok s' => parseDiffGo s' ls

/-- The initial state of `parseDiff`. -/
def initPD : PDState := ⟨[], none, none, 0⟩

/-- `parseDiff` on an already-split list of lines. -/
def parseDiffLines (ls : List Line) : Except Line (List FileEntry) :=
  parseDiffGo initPD ls

/-- `parseDiff` from part_000, on the raw diff text. -/
def parseDiff (diffContent : Line) : Except Line (List FileEntry) :=
  parseDiffLines (splitLines diffContent)

/-! ## The two `extractAddedLinesWithRelativeNumbers` implementations -/

/-- A streaming fold: each input element updates the state and emits a batch
of output records, concatenated in order. -/
def mapAccumStream (f : σ → α → σ × List β) : σ → List α → List β
  | _, [] => []
  | s, a :: as => (f s a).2 ++ mapAccumStream f (f s a).1 as

/-- The state reached by the streaming fold after consuming the input. -/
def runState (f : σ → α → σ × List β) (s : σ) (as : List α) : σ :=
  as.foldl (fun s a => (f s a).1) s

/-- A record pushed by part_001's extractor: `relativeLine` counts every
physical line of the diff; `newLine` is the line number in the new file
(an integer, since a hunk header `+0` sets the counter to -1). -/
structure AddedRec where
  relativeLine : Nat
  newLine : Int
  content : Line
deriving DecidableEq

/-- The metadata skip of part_001's extractor (lines 71-82). -/
def metaSkip1 (l : Line) : Bool :=
  startsWith (lit "diff --git") l || startsWith (lit "index ") l ||
  startsWith (lit "---") l || startsWith (lit "+++") l ||
  startsWith (lit "From ") l || startsWith (lit "Date: ") l ||
  startsWith (lit "Subject: ") l

/-- One iteration of part_001's loop.  The state is
(`relativeLine`, `newLineNumber`); `relativeLine` is bumped for every
physical line before anything else happens. -/
def step1 (s : Nat × Int) (l : Line) : (Nat × Int) × List AddedRec :=
  let r := s.1 + 1
  if startsWith (lit "@@") l then
    match searchNewStart l with
    | some n => ((r, (n : Int) - 1), [])
    | none => ((r, s.2), [])
  else if metaSkip1 l then ((r, s.2), [])
  else if startsWith (lit "+") l && !startsWith (lit "+++") l then
    ((r, s.2 + 1), [⟨r, s.2 + 1, l.drop 1⟩])
  else if startsWith (lit " ") l || l == [] then ((r, s.2 + 1), [])
  else if startsWith (lit "-") l && !startsWith (lit "---") l then ((r, s.2), [])
  else ((r, s.2), [])

/-- part_001's extractor on an already-split list of lines. -/
def extractAdded1 (ls : List Line) : List AddedRec :=
  mapAccumStream step1 (0, 0) ls

/-- `extractAddedLinesWithRelativeNumbers` from part_001. -/
def extractAddedLinesWithRelativeNumbers1 (diffContent : Line) : List AddedRec :=
  extractAdded1 (splitLines diffContent)

/-- A record pushed by part_002's extractor (`newLine` is always `null`). -/
structure Added2 where
  relativeLine : Nat
  content : Line
  newLine : Option Int
deriving DecidableEq

/-- The skip of part_002's extractor (lines 52-61): file headers, metadata
and hunk headers are all skipped before the position counter is bumped. -/
def metaSkip2 (l : Line) : Bool :=
  startsWith (lit "---") l || startsWith (lit "+++") l ||
  startsWith (lit "index ") l || startsWith (lit "diff --git") l ||
  startsWith (lit "From ") l || startsWith (lit "Date: ") l ||
  startsWith (lit "Subject: ") l || startsWith (lit "@@") l

/-- One iteration of part_002's loop; the state is `relativeLine` alone. -/
def step2 (r : Nat) (l : Line) : Nat × List Added2 :=
  if metaSkip2 l then (r, [])
  else
    let rr := r + 1
    if startsWith (lit "+") l then (rr, [⟨rr, l.drop 1, none⟩]) else (rr, [])

/-- part_002's extractor on an already-split list of lines. -/
def extractAdded2 (ls : List Line) : List Added2 :=
  mapAccumStream step2 0 ls

/-- `extractAddedLinesWithRelativeNumbers` from part_002. -/
def extractAddedLinesWithRelativeNumbers2 (diffContent : Line) : List Added2 :=
  extractAdded2 (splitLines diffContent)

/-! ## Observation of the position counters, and a specification-side
list of consecutive integers -/

/-- Observation of part_001's `relativeLine` counter: every physical line is
counted and receives the value the counter holds right after the bump. -/
def stepSeqAll (r : Nat) (_ : Line) : Nat × List Nat := (r + 1, [r + 1])

/-- The sequence of `relativeLine` values part_001 assigns to the lines. -/
def relativeSeq1 (ls : List Line) : List Nat := mapAccumStream stepSeqAll 0 ls

/-- Observation of part_002's `relativeLine` counter: skipped lines receive
no value, counted ones receive the value right after the bump. -/
def stepSeq2 (r : Nat) (l : Line) : Nat × List Nat :=
  if metaSkip2 l then (r, []) else (r + 1, [r + 1])

/-- The sequence of `relativeLine` values part_002 assigns to counted lines. -/
def relativeSeq2 (ls : List Line) : List Nat := mapAccumStream stepSeq2 0 ls

/-- Number of lines part_002 counts (everything its skip does not catch). -/
def countCounted2 (ls : List Line) : Nat :=
  (ls.filter fun l => !metaSkip2 l).length

/-- The list `s, s+1, ..., s+n-1`. -/
def consecutive : Nat → Nat → List Nat
  | _, 0 => []
  | s, n + 1 => s :: consecutive (s + 1) n

/-! ## Specification-side definitions -/

/-- The hunk-header pattern exactly as the specification states it:
`@@ -<int>[,<int>] +<int>[,<int>] @@` with trailing text after the closing
`@@` ignored.  The optional group is a comma followed by an integer, taken
as a whole, so a bare comma with no following integer does not match. -/
def claimHunkPattern (l : Line) : Option (Nat × Option Nat × Nat × Option Nat) :=
  Option.bind (dropLit (lit "@@ -") l) fun r1 =>
  Option.bind (numPairStrict r1) fun p1 =>
  Option.bind (dropLit (lit " +") p1.2.2) fun r3 =>
  Option.bind (numPairStrict r3) fun p2 =>
  Option.bind (dropLit (lit " @@") p2.2.2) fun _ =>
  some (p1.1, p1.2.1, p2.1, p2.2.1)

/-- A context line of a hunk body (consumed by the content branch of
`parseDiff`). -/
def isCtxLine (l : Line) : Bool := startsWith (lit " ") l

/-- A deleted line of a hunk body.  The guard against the file header
`---` mirrors the metadata skip that precedes the content branch. -/
def isDelLine (l : Line) : Bool :=
  startsWith (lit "-") l && !startsWith (lit "---") l

/-- An added line of a hunk body, with the corresponding guard against
the file header `+++`. -/
def isAddLine (l : Line) : Bool :=
  startsWith (lit "+") l && !startsWith (lit "+++") l

/-- A hunk-body line carrying one of the three diff markers. -/
def isMarker (l : Line) : Bool := isCtxLine l || isDelLine l || isAddLine l

/-- A parsed line occupying a line of the new file (normal or added). -/
def isAC (c : ParsedLine) : Bool := c.type == .normal || c.type == .added

/-- Number of added-or-context lines in a hunk body. -/
def countACLines (ls : List Line) : Nat :=
  (ls.filter fun l => isCtxLine l || isAddLine l).length

/-- The parsed lines `parseDiff` appends while consuming a hunk body, given
the running counts `a` of normal-or-added and `d` of normal-or-deleted lines
already in the hunk.  This is the closed form established by the invariant
lemmas below; it is only used to state and prove them. -/
def bodyChanges (info : HunkInfo) : Nat → Nat → List Line → List ParsedLine
  | _, _, [] => []
  | a, d, l :: ls =>
    if isCtxLine l then
      ⟨.normal, l.drop 1, some (info.oldStart + d), some (info.newStart + a)⟩ ::
        bodyChanges info (a + 1) (d + 1) ls
    else if isDelLine l then
      ⟨.deleted, l.drop 1, some (info.oldStart + d), none⟩ ::
        bodyChanges info a (d + 1) ls
    else
      ⟨.added, l.drop 1, none, some (info.newStart + a)⟩ ::
        bodyChanges info (a + 1) d ls

/-- The line mappings `parseDiff` appends while consuming a hunk body, given
the running normal-or-added count `a` and the running `relativeLine` value
`r`.  Closed form for the invariant lemmas below. -/
def bodyMappings (info : HunkInfo) : Nat → Nat → List Line → List Mapping
  | _, _, [] => []
  | a, r, l :: ls =>
    if isCtxLine l then bodyMappings info (a + 1) (r + 1) ls
    else if isDelLine l then bodyMappings info a r ls
    else ⟨r + 1, some (info.newStart + a), l.drop 1, .added⟩ ::
      bodyMappings info (a + 1) (r + 1) ls

/-! ## Generic lemmas -/

lemma runState_cons (f : σ → α → σ × List β) (s : σ) (a : α) (as : List α) :
    runState f s (a :: as) = runState f (f s a).1 as := by
  simp [runState]

lemma mapAccumStream_append (f : σ → α → σ × List β) :
    ∀ (xs : List α) (s : σ) (ys : List α),
      mapAccumStream f s (xs ++ ys) =
        mapAccumStream f s xs ++ mapAccumStream f (runState f s xs) ys
  | [], s, ys => by simp [mapAccumStream, runState]
  | x :: xs, s, ys => by
      simp only [List.cons_append, mapAccumStream, List.append_eq]
      rw [mapAccumStream_append f xs ((f s x).1) ys, runState_cons]
      simp [List.append_assoc]

lemma step1_fst (s : Nat × Int) (l : Line) : (step1 s l).1.1 = s.1 + 1 := by
  simp only [step1]
  repeat' split
  all_goals rfl

lemma runState_step1_fst : ∀ (ls : List Line) (s : Nat × Int),
    (runState step1 s ls).1 = s.1 + ls.length
  | [], s => by simp [runState]
  | l :: ls, s => by
      rw [runState_cons, runState_step1_fst ls (step1 s l).1, step1_fst]
      simp
      omega

lemma startsWith_single {c : Char} {l : Line} (h : startsWith [c] l = true) :
    ∃ t, l = c :: t := by
  cases l with
  | nil => exact absurd h (by simp [startsWith])
  | cons a t =>
      simp [startsWith] at h
      exact ⟨t, by rw [h]⟩

lemma dropLit_eq : ∀ {p l r : Line}, dropLit p l = some r → l = p ++ r
  | [], l, r, h => by
      simp only [dropLit, Option.some.injEq] at h
      simp [h]
  | a :: ps, [], r, h => by simp [dropLit] at h
  | a :: ps, c :: cs, r, h => by
      by_cases hac : (a == c) = true
      · have hca : a = c := by simpa using hac
        have h2 : dropLit ps cs = some r := by simpa [dropLit, hac] using h
        have h3 := dropLit_eq h2
        subst hca
        simp [h3]
      · simp [dropLit, hac] at h

lemma startsWith_exists : ∀ {p l : Line}, startsWith p l = true → ∃ t, l = p ++ t
  | [], l, _ => ⟨l, rfl⟩
  | _ :: _, [], h => by simp [startsWith] at h
  | a :: ps, c :: cs, h => by
      simp only [startsWith, Bool.and_eq_true, beq_iff_eq] at h
      obtain ⟨t, ht⟩ := startsWith_exists h.2
      subst ht
      exact ⟨t, by rw [h.1]; rfl⟩

lemma mem_consecutive : ∀ {n s m : Nat}, m ∈ consecutive s n ↔ s ≤ m ∧ m < s + n
  | 0, s, m => by simp [consecutive]
  | n + 1, s, m => by
      simp only [consecutive, List.mem_cons, mem_consecutive (n := n)]
      omega

lemma consecutive_nodup : ∀ {n s : Nat}, (consecutive s n).Nodup
  | 0, _ => by simp [consecutive]
  | n + 1, s => by
      simp only [consecutive, List.nodup_cons]
      refine ⟨fun hm => ?_, consecutive_nodup⟩
      have := mem_consecutive.mp hm
      omega

/-! ## Head-character evaluations -/

lemma ctx_not_diffGit (t : Line) : startsWith (lit "diff --git") (' ' :: t) = false := rfl

lemma ctx_not_at (t : Line) : startsWith (lit "@@") (' ' :: t) = false := rfl

lemma ctx_not_meta (t : Line) : isMetaLine (' ' :: t) = false := rfl

lemma dash_not_diffGit (t : Line) : startsWith (lit "diff --git") ('-' :: t) = false := rfl

lemma dash_not_at (t : Line) : startsWith (lit "@@") ('-' :: t) = false := rfl

lemma plus_not_diffGit (t : Line) : startsWith (lit "diff --git") ('+' :: t) = false := rfl

lemma plus_not_at (t : Line) : startsWith (lit "@@") ('+' :: t) = false := rfl

lemma dash_not_ppp (t : Line) : startsWith (lit "+++") ('-' :: t) = false := rfl

lemma dash_not_index (t : Line) : startsWith (lit "index ") ('-' :: t) = false := rfl

lemma dash_not_from (t : Line) : startsWith (lit "From ") ('-' :: t) = false := rfl

lemma dash_not_date (t : Line) : startsWith (lit "Date: ") ('-' :: t) = false := rfl

lemma dash_not_subject (t : Line) : startsWith (lit "Subject: ") ('-' :: t) = false := rfl

lemma plus_not_mmm (t : Line) : startsWith (lit "---") ('+' :: t) = false := rfl

lemma plus_not_index (t : Line) : startsWith (lit "index ") ('+' :: t) = false := rfl

lemma plus_not_from (t : Line) : startsWith (lit "From ") ('+' :: t) = false := rfl

lemma plus_not_date (t : Line) : startsWith (lit "Date: ") ('+' :: t) = false := rfl

lemma plus_not_subject (t : Line) : startsWith (lit "Subject: ") ('+' :: t) = false := rfl

lemma dash_not_meta (t : Line) (h3 : startsWith (lit "---") ('-' :: t) = false) :
    isMetaLine ('-' :: t) = false := by
  simp [isMetaLine, h3, dash_not_ppp, dash_not_index, dash_not_from,
    dash_not_date, dash_not_subject]

lemma plus_not_meta (t : Line) (h3 : startsWith (lit "+++") ('+' :: t) = false) :
    isMetaLine ('+' :: t) = false := by
  simp [isMetaLine, h3, plus_not_mmm, plus_not_index, plus_not_from,
    plus_not_date, plus_not_subject]

lemma isCtx_space (t : Line) : isCtxLine (' ' :: t) = true := rfl

lemma isCtx_dash (t : Line) : isCtxLine ('-' :: t) = false := rfl

lemma isCtx_plus (t : Line) : isCtxLine ('+' :: t) = false := rfl

lemma isDel_space (t : Line) : isDelLine (' ' :: t) = false := rfl

lemma isDel_plus (t : Line) : isDelLine ('+' :: t) = false := rfl

lemma isAdd_space (t : Line) : isAddLine (' ' :: t) = false := rfl

lemma isAdd_dash (t : Line) : isAddLine ('-' :: t) = false := rfl

/-! ## Behaviour of `parseDiff`'s step on hunk-body lines -/

lemma parseDiffStep_ctx (files : List FileEntry) (cf : FileEntry) (info : HunkInfo)
    (changes : List ParsedLine) (rls rl : Nat) (t : Line) :
    parseDiffStep ⟨files, some cf, some ⟨info, changes, rls⟩, rl⟩ (' ' :: t) =
      .ok ⟨files, some cf,
        some ⟨info, changes ++ [⟨.normal, t, some (info.oldStart + countND changes),
          some (info.newStart + countNA changes)⟩], rls⟩, rl + 1⟩ := rfl

lemma parseDiffStep_del (files : List FileEntry) (cf : FileEntry) (info : HunkInfo)
    (changes : List ParsedLine) (rls rl : Nat) (t : Line)
    (h3 : startsWith (lit "---") ('-' :: t) = false) :
    parseDiffStep ⟨files, some cf, some ⟨info, changes, rls⟩, rl⟩ ('-' :: t) =
      .ok ⟨files, some cf,
        some ⟨info, changes ++ [⟨.deleted, t, some (info.oldStart + countND changes),
          none⟩], rls⟩, rl⟩ := by
  simp [parseDiffStep, parseDiffLine, dash_not_diffGit, dash_not_at,
    dash_not_meta t h3, startsWith]

lemma parseDiffStep_add (files : List FileEntry) (cf : FileEntry) (info : HunkInfo)
    (changes : List ParsedLine) (rls rl : Nat) (t : Line)
    (h3 : startsWith (lit "+++") ('+' :: t) = false) :
    parseDiffStep ⟨files, some cf, some ⟨info, changes, rls⟩, rl⟩ ('+' :: t) =
      .ok ⟨files,
        some { cf with lineMappings := cf.lineMappings ++
          [⟨rl + 1, some (info.newStart + countNA changes), t, .added⟩] },
        some ⟨info, changes ++ [⟨.added, t, none,
          some (info.newStart + countNA changes)⟩], rls⟩, rl + 1⟩ := by
  simp [parseDiffStep, parseDiffLine, plus_not_diffGit, plus_not_at,
    plus_not_meta t h3, startsWith]

lemma countNA_append_normal (cs : List ParsedLine) (x : Line) (o n : Option Nat) :
    countNA (cs ++ [⟨.normal, x, o, n⟩]) = countNA cs + 1 := by
  simp [countNA, List.filter_append]

lemma countND_append_normal (cs : List ParsedLine) (x : Line) (o n : Option Nat) :
    countND (cs ++ [⟨.normal, x, o, n⟩]) = countND cs + 1 := by
  simp [countND, List.filter_append]

lemma countNA_append_del (cs : List ParsedLine) (x : Line) (o n : Option Nat) :
    countNA (cs ++ [⟨.deleted, x, o, n⟩]) = countNA cs := by
  simp [countNA, List.filter_append]

lemma countND_append_del (cs : List ParsedLine) (x : Line) (o n : Option Nat) :
    countND (cs ++ [⟨.deleted, x, o, n⟩]) = countND cs + 1 := by
  simp [countND, List.filter_append]

lemma countNA_append_add (cs : List ParsedLine) (x : Line) (o n : Option Nat) :
    countNA (cs ++ [⟨.added, x, o, n⟩]) = countNA cs + 1 := by
  simp [countNA, List.filter_append]

lemma countND_append_add (cs : List ParsedLine) (x : Line) (o n : Option Nat) :
    countND (cs ++ [⟨.added, x, o, n⟩]) = countND cs := by
  simp [countND, List.filter_append]

/-- While every remaining line carries a diff marker, `parseDiff`'s loop is
exactly the closed-form accumulation described by `bodyChanges` and
`bodyMappings`, followed by the end-of-input close-out. -/
lemma parseDiffGo_markers (info : HunkInfo) (rls : Nat) :
    ∀ (body : List Line) (files : List FileEntry) (cf : FileEntry)
      (changes : List ParsedLine) (rl : Nat),
      (∀ l ∈ body, isMarker l = true) →
      parseDiffGo ⟨files, some cf, some ⟨info, changes, rls⟩, rl⟩ body =
        .ok (files ++ [{ cf with
          hunks := cf.hunks ++
            [⟨info, changes ++ bodyChanges info (countNA changes) (countND changes) body,
              rls⟩],
          lineMappings := cf.lineMappings ++
            bodyMappings info (countNA changes) rl body }])
  | [], files, cf, changes, rl, _ => by
      simp [parseDiffGo, parseDiffFinal, bodyChanges, bodyMappings]
  | l :: ls, files, cf, changes, rl, h => by
      have hm : isMarker l = true := h l (List.mem_cons_self l ls)
      have hrest : ∀ x ∈ ls, isMarker x = true :=
        fun x hx => h x (List.mem_cons_of_mem l hx)
      have hm3 : isCtxLine l = true ∨ isDelLine l = true ∨ isAddLine l = true := by
        simpa [isMarker, Bool.or_assoc, Bool.or_eq_true] using hm
      rcases hm3 with hc | hd | ha
      · -- context line
        obtain ⟨t, rfl⟩ := startsWith_single (c := ' ') (by simpa [isCtxLine] using hc)
        simp only [parseDiffGo, parseDiffStep_ctx]
        have ih := parseDiffGo_markers info rls ls files cf
          (changes ++ [(⟨.normal, t, some (info.oldStart + countND changes),
            some (info.newStart + countNA changes)⟩ : ParsedLine)]) (rl + 1) hrest
        rw [ih]
        simp [bodyChanges, bodyMappings, isCtx_space,
          countNA_append_normal, countND_append_normal, List.append_assoc]
      · -- deleted line
        have hd2 : startsWith (lit "-") l = true ∧ ¬ startsWith (lit "---") l = true := by
          simpa [isDelLine, Bool.and_eq_true] using hd
        have hd3 : startsWith (lit "---") l = false := by
          simpa using hd2.2
        obtain ⟨t, rfl⟩ := startsWith_single (c := '-') hd2.1
        simp only [parseDiffGo, parseDiffStep_del files cf info changes rls rl t hd3]
        have ih := parseDiffGo_markers info rls ls files cf
          (changes ++ [(⟨.deleted, t, some (info.oldStart + countND changes), none⟩ :
            ParsedLine)]) rl hrest
        rw [ih]
        have hd4 : startsWith ['-', '-'] t = false := by simpa [startsWith] using hd3
        simp [bodyChanges, bodyMappings, isCtx_dash, isDelLine, hd3, hd4, startsWith,
          countNA_append_del, countND_append_del, List.append_assoc]
      · -- added line
        have ha2 : startsWith (lit "+") l = true ∧ ¬ startsWith (lit "+++") l = true := by
          simpa [isAddLine, Bool.and_eq_true] using ha
        have ha3 : startsWith (lit "+++") l = false := by
          simpa using ha2.2
        obtain ⟨t, rfl⟩ := startsWith_single (c := '+') ha2.1
        simp only [parseDiffGo, parseDiffStep_add files cf info changes rls rl t ha3]
        have ih := parseDiffGo_markers info rls ls files
          { cf with lineMappings := cf.lineMappings ++
            [⟨rl + 1, some (info.newStart + countNA changes), t, .added⟩] }
          (changes ++ [(⟨.added, t, none, some (info.newStart + countNA changes)⟩ :
            ParsedLine)]) (rl + 1) hrest
        rw [ih]
        simp [bodyChanges, bodyMappings, isCtx_plus, isAddLine, ha3, startsWith,
          isDel_plus, countNA_append_add, countND_append_add, List.append_assoc]

lemma at_not_diffGit (t : Line) : startsWith (lit "diff --git") ('@' :: t) = false := rfl

lemma at_at (t : Line) : startsWith (lit "@@") ('@' :: '@' :: t) = true := rfl

lemma parseHunkHeader_shape {l : Line} {info : HunkInfo}
    (h : parseHunkHeader l = some info) : ∃ t, l = '@' :: '@' :: ' ' :: '-' :: t := by
  rcases hm : matchHunkHeader l with _ | q
  · rw [parseHunkHeader, hm] at h
    simp at h
  · rcases hdl : dropLit (lit "@@ -") l with _ | r1
    · rw [matchHunkHeader, hdl] at hm
      simp at hm
    · exact ⟨r1, dropLit_eq hdl⟩

lemma parseDiffStep_header (files : List FileEntry) (cf : FileEntry) (rl : Nat)
    (l : Line) (info : HunkInfo) (hh : parseHunkHeader l = some info) :
    parseDiffStep ⟨files, some cf, none, rl⟩ l =
      .ok ⟨files, some cf, some ⟨info, [], rl⟩, rl⟩ := by
  obtain ⟨t, rfl⟩ := parseHunkHeader_shape hh
  simp [parseDiffStep, at_not_diffGit, at_at, hh]

lemma isAC_normal (x : Line) (o n : Option Nat) :
    isAC ⟨.normal, x, o, n⟩ = true := rfl

lemma isAC_deleted (x : Line) (o n : Option Nat) :
    isAC ⟨.deleted, x, o, n⟩ = false := rfl

lemma isAC_added (x : Line) (o n : Option Nat) :
    isAC ⟨.added, x, o, n⟩ = true := rfl

lemma countACLines_ctx (t : Line) (ls : List Line) :
    countACLines ((' ' :: t) :: ls) = countACLines ls + 1 := by
  simp [countACLines, isCtx_space]

lemma countACLines_del (t : Line) (ls : List Line) :
    countACLines (('-' :: t) :: ls) = countACLines ls := by
  simp [countACLines, isCtx_dash, isAdd_dash]

lemma countACLines_add (t : Line) (ls : List Line)
    (ha : isAddLine ('+' :: t) = true) :
    countACLines (('+' :: t) :: ls) = countACLines ls + 1 := by
  simp [countACLines, isCtx_plus, ha]

/-- The new-file line numbers that `parseDiff` hands to the added and context
lines of a hunk body are exactly consecutive integers. -/
lemma bodyChanges_AC_newLines (info : HunkInfo) :
    ∀ (body : List Line) (a d : Nat), (∀ l ∈ body, isMarker l = true) →
      ((bodyChanges info a d body).filter isAC).map (fun c => c.newLine) =
        (consecutive (info.newStart + a) (countACLines body)).map some
  | [], a, d, _ => by simp [bodyChanges, countACLines, consecutive]
  | l :: ls, a, d, h => by
      have hm : isMarker l = true := h l (List.mem_cons_self l ls)
      have hrest : ∀ x ∈ ls, isMarker x = true :=
        fun x hx => h x (List.mem_cons_of_mem l hx)
      have hm3 : isCtxLine l = true ∨ isDelLine l = true ∨ isAddLine l = true := by
        simpa [isMarker, Bool.or_assoc, Bool.or_eq_true] using hm
      rcases hm3 with hc | hd | ha
      · obtain ⟨t, rfl⟩ := startsWith_single (c := ' ') (by simpa [isCtxLine] using hc)
        rw [countACLines_ctx]
        simp only [bodyChanges, isCtx_space, if_true, List.filter_cons, isAC_normal,
          List.map_cons, consecutive]
        rw [bodyChanges_AC_newLines info ls (a + 1) (d + 1) hrest]
        simp [Nat.add_assoc]
      · have hd2 : startsWith (lit "-") l = true ∧ ¬ startsWith (lit "---") l = true := by
          simpa [isDelLine, Bool.and_eq_true] using hd
        obtain ⟨t, rfl⟩ := startsWith_single (c := '-') hd2.1
        rw [countACLines_del]
        have hdel : isDelLine ('-' :: t) = true := hd
        simp only [bodyChanges, isCtx_dash, Bool.false_eq_true, if_false, hdel, if_true,
          List.filter_cons, isAC_deleted]
        exact bodyChanges_AC_newLines info ls a (d + 1) hrest
      · have ha2 : startsWith (lit "+") l = true ∧ ¬ startsWith (lit "+++") l = true := by
          simpa [isAddLine, Bool.and_eq_true] using ha
        obtain ⟨t, rfl⟩ := startsWith_single (c := '+') ha2.1
        rw [countACLines_add t ls ha]
        have hnd : isDelLine ('+' :: t) = false := isDel_plus t
        simp only [bodyChanges, isCtx_plus, Bool.false_eq_true, if_false, hnd,
          List.filter_cons, isAC_added, List.map_cons, consecutive, if_true,
          List.drop_succ_cons, List.drop_zero]
        rw [bodyChanges_AC_newLines info ls (a + 1) d hrest]
        simp [Nat.add_assoc]

/-! ## Claim C1 -/

/-- C1: for every valid single-hunk patch — a `diff --git` line, a hunk
header parsing to `info` with `newStart = N`, and a body of marker lines of
which exactly `info.newCount` are added-or-context — `parseDiff` assigns the
added and context lines of the hunk exactly the `newCount` consecutive
new-file line numbers `N, N+1, ..., N+newCount-1`, in document order; in
particular every added line's `newFileLine` lies in that range, and no
new-file line number is assigned twice, so none is shared between an added
and a context line. -/
theorem claim1_single_hunk_consecutive_new_lines
    (header : Line) (body : List Line) (info : HunkInfo)
    (hheader : parseHunkHeader header = some info)
    (hbody : ∀ l ∈ body, isMarker l = true)
    (hcount : countACLines body = info.newCount) :
    ∃ (hk : Hunk) (ms : List Mapping),
      parseDiffLines (lit "diff --git a/f b/f" :: header :: body) =
        .ok [⟨lit "f", [hk], ms⟩]
      ∧ hk.header = info
      ∧ ((hk.changes.filter isAC).map (fun c => c.newLine)) =
          (consecutive info.newStart info.newCount).map some
      ∧ (∀ c ∈ hk.changes, c.type = .added →
          ∃ v, c.newLine = some v ∧ info.newStart ≤ v ∧ v < info.newStart + info.newCount)
      ∧ ((hk.changes.filter isAC).map (fun c => c.newLine)).Nodup := by
  have hAClist : ((bodyChanges info 0 0 body).filter isAC).map (fun c => c.newLine) =
      (consecutive info.newStart info.newCount).map some := by
    have h := bodyChanges_AC_newLines info body 0 0 hbody
    rw [hcount] at h
    simpa using h
  refine ⟨⟨info, bodyChanges info 0 0 body, 0⟩, bodyMappings info 0 0 body,
    ?_, rfl, hAClist, ?_, ?_⟩
  · have e1 : parseDiffStep initPD (lit "diff --git a/f b/f") =
        .ok ⟨[], some ⟨lit "f", [], []⟩, none, 0⟩ := rfl
    have e2 := parseDiffStep_header [] ⟨lit "f", [], []⟩ 0 header info hheader
    have e3 := parseDiffGo_markers info 0 body [] ⟨lit "f", [], []⟩ [] 0 hbody
    simp only [parseDiffLines, parseDiffGo, e1, e2]
    rw [e3]
    simp [countNA, countND]
  · intro c hc htype
    have hACc : isAC c = true := by simp [isAC, htype]
    have hmem : c.newLine ∈ ((bodyChanges info 0 0 body).filter isAC).map
        (fun c => c.newLine) :=
      List.mem_map_of_mem _ (List.mem_filter.mpr ⟨hc, hACc⟩)
    rw [hAClist] at hmem
    obtain ⟨v, hv, hve⟩ := List.mem_map.mp hmem
    have := mem_consecutive.mp hv
    exact ⟨v, hve.symm, this.1, this.2⟩
  · rw [hAClist]
    exact List.Nodup.map (Option.some_injective _) consecutive_nodup

/-- Witness for C1 at a concrete single-hunk patch: the header
`@@ -2,3 +2,2 @@` with body a context, a deleted and an added line. -/
theorem claim1_single_hunk_consecutive_new_lines_witness :
    (parseHunkHeader (lit "@@ -2,3 +2,2 @@") = some ⟨2, 3, 2, 2⟩
      ∧ (∀ l ∈ [lit " u", lit "-r", lit "+a"], isMarker l = true)
      ∧ countACLines [lit " u", lit "-r", lit "+a"] = (2 : Nat))
    ∧ (∃ (hk : Hunk) (ms : List Mapping),
      parseDiffLines (lit "diff --git a/f b/f" :: lit "@@ -2,3 +2,2 @@" ::
          [lit " u", lit "-r", lit "+a"]) =
        .ok [⟨lit "f", [hk], ms⟩]
      ∧ hk.header = ⟨2, 3, 2, 2⟩
      ∧ ((hk.changes.filter isAC).map (fun c => c.newLine)) =
          (consecutive 2 2).map some
      ∧ (∀ c ∈ hk.changes, c.type = .added →
          ∃ v, c.newLine = some v ∧ 2 ≤ v ∧ v < 2 + 2)
      ∧ ((hk.changes.filter isAC).map (fun c => c.newLine)).Nodup) :=
  ⟨⟨by decide, by decide, by decide⟩,
    claim1_single_hunk_consecutive_new_lines (lit "@@ -2,3 +2,2 @@")
      [lit " u", lit "-r", lit "+a"] ⟨2, 3, 2, 2⟩
      (by decide) (by decide) (by decide)⟩

/-! ## Claim C2 -/

/-- C2: in a two-hunk patch with headers `@@ -1,3 +1,3 @@` and
`@@ -10,2 +11,4 @@`, part_001's extractor takes the second hunk's numbering
from that hunk's own header: whatever the first hunk's body `body1` was (and
hence whatever new-file line number it reached), the added line that opens
the second hunk is recorded with `newLine = 11`.  Its patch position is
`body1.length + 3` because the counter counts every physical line. -/
theorem claim2_second_hunk_numbering_from_own_header (body1 : List Line) :
    extractAdded1 (lit "@@ -1,3 +1,3 @@" :: body1 ++
        [lit "@@ -10,2 +11,4 @@", lit "+first"]) =
      extractAdded1 (lit "@@ -1,3 +1,3 @@" :: body1) ++
        [⟨body1.length + 3, 11, lit "first"⟩] := by
  rw [extractAdded1, extractAdded1,
    mapAccumStream_append step1 (lit "@@ -1,3 +1,3 @@" :: body1) (0, 0)
      [lit "@@ -10,2 +11,4 @@", lit "+first"]]
  congr 1
  have hfst : (runState step1 (0, 0) (lit "@@ -1,3 +1,3 @@" :: body1)).1 =
      body1.length + 1 := by
    rw [runState_step1_fst]
    simp [Nat.add_comm]
  set s := runState step1 (0, 0) (lit "@@ -1,3 +1,3 @@" :: body1) with hs
  have e1 : step1 s (lit "@@ -10,2 +11,4 @@") = ((s.1 + 1, 10), []) := rfl
  have e2 : step1 (s.1 + 1, (10 : Int)) (lit "+first") =
      ((s.1 + 2, 11), [⟨s.1 + 2, 11, lit "first"⟩]) := rfl
  simp only [mapAccumStream, e1, e2, List.nil_append, List.append_nil]
  rw [hfst]

/-! ## Claim C3 -/

lemma step1_emit (s : Nat × Int) (l : Line) :
    (step1 s l).2 = [] ∨ ∃ n c, (step1 s l).2 = [⟨s.1 + 1, n, c⟩] := by
  simp only [step1]
  repeat' split
  all_goals first
    | exact Or.inl rfl
    | exact Or.inr ⟨_, _, rfl⟩

lemma seqAll_consecutive : ∀ (ls : List Line) (r : Nat),
    mapAccumStream stepSeqAll r ls = consecutive (r + 1) ls.length
  | [], r => by simp [mapAccumStream, consecutive]
  | l :: ls, r => by
      simp only [mapAccumStream, stepSeqAll, List.length_cons, consecutive,
        List.singleton_append]
      rw [seqAll_consecutive ls (r + 1)]

lemma countCounted2_cons_skip (l : Line) (ls : List Line)
    (hm : metaSkip2 l = true) : countCounted2 (l :: ls) = countCounted2 ls := by
  simp [countCounted2, hm]

lemma countCounted2_cons_keep (l : Line) (ls : List Line)
    (hm : metaSkip2 l = false) : countCounted2 (l :: ls) = countCounted2 ls + 1 := by
  simp [countCounted2, hm]

lemma seq2_consecutive : ∀ (ls : List Line) (r : Nat),
    mapAccumStream stepSeq2 r ls = consecutive (r + 1) (countCounted2 ls)
  | [], r => by simp [mapAccumStream, countCounted2, consecutive]
  | l :: ls, r => by
      by_cases hm : metaSkip2 l = true
      · rw [countCounted2_cons_skip l ls hm]
        simp only [mapAccumStream, stepSeq2, hm, if_true, List.nil_append]
        exact seq2_consecutive ls r
      · rw [countCounted2_cons_keep l ls (by simpa using hm)]
        simp only [mapAccumStream, stepSeq2, hm, if_false, consecutive,
          List.singleton_append, Bool.false_eq_true]
        rw [seq2_consecutive ls (r + 1)]

lemma extract1_positions_sublist : ∀ (ls : List Line) (s : Nat × Int),
    List.Sublist ((mapAccumStream step1 s ls).map (fun a => a.relativeLine))
      (mapAccumStream stepSeqAll s.1 ls)
  | [], s => by simp [mapAccumStream]
  | l :: ls, s => by
      have ih := extract1_positions_sublist ls (step1 s l).1
      rw [step1_fst] at ih
      rcases step1_emit s l with he | ⟨n, c, he⟩
      · simp only [mapAccumStream, stepSeqAll, he, List.nil_append, List.map_append,
          List.singleton_append]
        exact List.Sublist.cons (s.1 + 1) ih
      · simp only [mapAccumStream, stepSeqAll, he, List.map_append, List.map_cons,
          List.map_nil, List.singleton_append, List.cons_append, List.nil_append]
        exact List.Sublist.cons₂ (s.1 + 1) ih

lemma extract2_positions_sublist : ∀ (ls : List Line) (r : Nat),
    List.Sublist ((mapAccumStream step2 r ls).map (fun a => a.relativeLine))
      (mapAccumStream stepSeq2 r ls)
  | [], r => by simp [mapAccumStream]
  | l :: ls, r => by
      by_cases hm : metaSkip2 l = true
      · simp only [mapAccumStream, step2, stepSeq2, hm, if_true, List.nil_append]
        exact extract2_positions_sublist ls r
      · by_cases hp : startsWith (lit "+") l = true
        · simp only [mapAccumStream, step2, stepSeq2, hm, hp, if_false, if_true,
            Bool.false_eq_true, List.singleton_append, List.cons_append,
            List.map_cons, List.nil_append]
          exact List.Sublist.cons₂ (r + 1) (extract2_positions_sublist ls (r + 1))
        · simp only [mapAccumStream, step2, stepSeq2, hm, hp, if_false,
            Bool.false_eq_true, List.singleton_append, List.nil_append]
          exact List.Sublist.cons (r + 1) (extract2_positions_sublist ls (r + 1))

/-- C3: within one parse, the position counter assigns values forming a
strictly increasing, duplicate-free, gap-free run that steps by exactly 1 per
counted line, across all hunks: part_001's counter (which counts every
physical line) assigns exactly `1, 2, ..., length`, part_002's counter
(which skips metadata and hunk headers) assigns exactly
`1, 2, ..., countCounted2 ls`, and the `relativeLine` values of the records
either extractor keeps are drawn from those runs in order. -/
theorem claim3_diff_positions_consecutive (ls : List Line) :
    relativeSeq1 ls = consecutive 1 ls.length
    ∧ relativeSeq2 ls = consecutive 1 (countCounted2 ls)
    ∧ List.Sublist ((extractAdded1 ls).map (fun a => a.relativeLine)) (relativeSeq1 ls)
    ∧ List.Sublist ((extractAdded2 ls).map (fun a => a.relativeLine)) (relativeSeq2 ls) :=
  ⟨seqAll_consecutive ls 0, seq2_consecutive ls 0,
    extract1_positions_sublist ls (0, 0), extract2_positions_sublist ls 0⟩

/-! ## Claim C4 -/

lemma strict_imp_lax {cs : Line} {o : Nat} {oc : Option Nat} {r : Line}
    (h : numPairStrict cs = some (o, oc, r)) (hr : ∀ t, r ≠ ',' :: t) :
    numPairLax cs = some (o, oc, r) := by
  rcases htd : takeDigits cs with ⟨d1, r1⟩
  unfold numPairStrict at h
  unfold numPairLax
  rw [htd] at h ⊢
  cases d1 with
  | nil => simp at h
  | cons a as =>
    cases r1 with
    | nil => simpa using h
    | cons b r2 =>
      by_cases hb : b = ','
      · subst hb
        rcases htd2 : takeDigits r2 with ⟨d2, r3⟩
        cases d2 with
        | nil =>
            simp only [htd2, if_true, Option.some.injEq, Prod.mk.injEq] at h
            exact absurd (h.2.2.symm) (hr r2)
        | cons e es =>
            simp only [htd2, if_true] at h ⊢
            simpa using h
      · simp only [if_neg hb] at h ⊢
        simpa using h

/-- C4 (amended): every line matching the pattern
`@@ -<int>[,<int>] +<int>[,<int>] @@` (trailing text ignored) is parsed by
`parseHunkHeader` into its four integers, with `oldCount`/`newCount`
defaulting to 1 when the comma-delimited count is omitted, and no error is
raised on such lines.  (The converse of the claimed iff fails: the regex is
slightly more liberal than the pattern, see the counterexample.) -/
theorem claim4_amended_header_parser_defaults (l : Line) (o n : Nat)
    (oc nc : Option Nat)
    (h : claimHunkPattern l = some (o, oc, n, nc)) :
    parseHunkHeader l = some ⟨o, oc.getD 1, n, nc.getD 1⟩ := by
  simp only [claimHunkPattern, Option.bind_eq_some,
    Option.some.injEq, Prod.mk.injEq] at h
  obtain ⟨r1, h1, ⟨o1, oc1, r2⟩, h2, r3, h3, ⟨n1, nc1, r4⟩, h4, r5, h5, hq⟩ := h
  dsimp only at h3 h5 hq
  have hr1 : ∀ t, r2 ≠ ',' :: t := by
    intro t ht
    have he := dropLit_eq h3
    rw [he] at ht
    simp [lit] at ht
  have hr2 : ∀ t, r4 ≠ ',' :: t := by
    intro t ht
    have he := dropLit_eq h5
    rw [he] at ht
    simp [lit] at ht
  have lax1 := strict_imp_lax h2 hr1
  have lax2 := strict_imp_lax h4 hr2
  have hm : matchHunkHeader l = some (o, oc, n, nc) := by
    simp only [matchHunkHeader, Option.bind_eq_some,
      Option.some.injEq, Prod.mk.injEq]
    exact ⟨r1, h1, (o1, oc1, r2), lax1, r3, h3, (n1, nc1, r4), lax2, r5, h5,
      hq.1, hq.2.1, hq.2.2.1, hq.2.2.2⟩
  rw [parseHunkHeader, hm]
  rfl

/-- C4 (counterexample): the line `@@ -5, +3 @@` has a bare comma with the
count omitted, so it does not match the claimed pattern
`@@ -<int>[,<int>] +<int>[,<int>] @@`; yet `parseHunkHeader` does not raise:
its regex `,?(\d+)?` consumes the dangling comma and the parse succeeds with
the count defaulting to 1.  This refutes the claimed "raises if and only if
the line does not match that pattern". -/
theorem claim4_counterexample_dangling_comma :
    parseHunkHeader (lit "@@ -5, +3 @@") = some ⟨5, 1, 3, 1⟩
    ∧ claimHunkPattern (lit "@@ -5, +3 @@") = none := by
  exact ⟨rfl, rfl⟩

/-- Witness for the amended C4 at the claim's own example `@@ -5 +5 @@`:
both counts omitted, both defaulting to 1. -/
theorem claim4_amended_header_parser_defaults_witness :
    claimHunkPattern (lit "@@ -5 +5 @@") = some (5, none, 5, none)
    ∧ parseHunkHeader (lit "@@ -5 +5 @@") = some ⟨5, 1, 5, 1⟩ :=
  ⟨by decide,
    claim4_amended_header_parser_defaults (lit "@@ -5 +5 @@") 5 5 none none
      (by decide)⟩

/-! ## Claim C5 -/

/-- C5: the coexisting diff-position implementations are not extensionally
equal.  On the patch `@@ -1,1 +1,1 @@` / `+x`, part_001 (which bumps the
counter for every physical line, hunk header included) records the added
line `x` at position 2, while part_002 (which skips hunk headers and
metadata before bumping) records the same added line at position 1. -/
theorem claim5_position_implementations_disagree :
    extractAdded1 [lit "@@ -1,1 +1,1 @@", lit "+x"] = [⟨2, 1, lit "x"⟩]
    ∧ extractAdded2 [lit "@@ -1,1 +1,1 @@", lit "+x"] = [⟨1, lit "x", none⟩]
    ∧ (2 : Nat) ≠ 1 :=
  ⟨rfl, rfl, by decide⟩

/-! ## Claim C6 -/

/-- C6: parsing the body `@@ -2,3 +2,2 @@`, ` unchanged line`,
`-removed line`, `+added line` (wrapped in a file separator, since
`parseDiff` opens a file record only at a `diff --git` line) yields exactly
one context line with oldFileLine 2 and newFileLine 2, one deleted line with
oldFileLine 3 and no newFileLine, and one added line with newFileLine 3 and
text `added line`; part_001's extractor agrees on the added line's
newFileLine 3. -/
theorem claim6_concrete_three_line_hunk :
    parseDiffLines [lit "diff --git a/f b/f", lit "@@ -2,3 +2,2 @@",
        lit " unchanged line", lit "-removed line", lit "+added line"] =
      .ok [⟨lit "f",
        [⟨⟨2, 3, 2, 2⟩,
          [⟨.normal, lit "unchanged line", some 2, some 2⟩,
           ⟨.deleted, lit "removed line", some 3, none⟩,
           ⟨.added, lit "added line", none, some 3⟩], 0⟩],
        [⟨2, some 3, lit "added line", .added⟩]⟩]
    ∧ extractAdded1 [lit "@@ -2,3 +2,2 @@", lit " unchanged line",
        lit "-removed line", lit "+added line"] = [⟨4, 3, lit "added line"⟩] :=
  ⟨rfl, rfl⟩

/-! ## Claim C7 -/

/-- C7 (counterexample): the diff-util extractors do not reset the position
counter at a `diff --git` file separator.  The patch below contains two
files with byte-identical sections `@@ -1,1 +1,1 @@` / `+a`; under the
claimed reset both added lines would receive the same (fresh) position, but
part_002 assigns 1 and 2: the counter runs on across the separator. -/
theorem claim7_counterexample_counter_not_reset :
    extractAdded2 [lit "@@ -1,1 +1,1 @@", lit "+a", lit "diff --git a/b b/b",
        lit "@@ -1,1 +1,1 @@", lit "+a"] =
      [⟨1, lit "a", none⟩, ⟨2, lit "a", none⟩]
    ∧ extractAdded2 [lit "@@ -1,1 +1,1 @@", lit "+a"] = [⟨1, lit "a", none⟩]
    ∧ ((⟨2, lit "a", none⟩ : Added2) ≠ ⟨1, lit "a", none⟩) :=
  ⟨rfl, rfl, by decide⟩

/-- C7 (amended): at a `diff --git` separator, `parseDiff` (part_000) does
close out the current FilePatch (discarding, not appending, any in-flight
hunk), start a fresh one and reset its `relativeLine` counter and hunk state
to the initial values; the diff-util extractors do not: part_002 skips the
separator leaving its position counter untouched, and part_001 counts the
separator line itself and leaves `newLineNumber` unchanged — only the next
hunk header re-establishes the new-file counter. -/
theorem claim7_amended_separator_resets_only_parseDiff :
    (∀ (s : PDState) (l tok : Line),
      startsWith (lit "diff --git") l = true →
      (splitOnChar ' ' l).get? 2 = some tok →
      parseDiffStep s l = .ok ⟨s.files ++ s.currentFile.toList,
        some ⟨tok.drop 2, [], []⟩, none, 0⟩)
    ∧ (∀ (r : Nat) (l : Line), startsWith (lit "diff --git") l = true →
        step2 r l = (r, []))
    ∧ (∀ (s : Nat × Int) (l : Line), startsWith (lit "diff --git") l = true →
        step1 s l = ((s.1 + 1, s.2), [])) := by
  refine ⟨?_, ?_, ?_⟩
  · intro s l tok h1 h2
    have h2g : (splitOnChar ' ' l)[2]? = some tok := by
      rw [← List.get?_eq_getElem?]
      exact h2
    simp [parseDiffStep, h1, h2g]
  · intro r l h1
    have hm : metaSkip2 l = true := by simp [metaSkip2, h1]
    simp [step2, hm]
  · intro s l h1
    obtain ⟨t, rfl⟩ := startsWith_exists h1
    have hat : startsWith (lit "@@") (lit "diff --git" ++ t) = false := rfl
    have hm : metaSkip1 (lit "diff --git" ++ t) = true := by
      simp [metaSkip1, h1]
    simp [step1, hat, hm]

/-- Witness for the amended C7 at the separator `diff --git a/b b/b`. -/
theorem claim7_amended_separator_resets_only_parseDiff_witness :
    (startsWith (lit "diff --git") (lit "diff --git a/b b/b") = true
      ∧ (splitOnChar ' ' (lit "diff --git a/b b/b")).get? 2 = some (lit "a/b"))
    ∧ parseDiffStep initPD (lit "diff --git a/b b/b") =
        .ok ⟨[], some ⟨lit "b", [], []⟩, none, 0⟩
    ∧ step2 5 (lit "diff --git a/b b/b") = (5, [])
    ∧ step1 (5, 7) (lit "diff --git a/b b/b") = ((6, 7), []) :=
  ⟨⟨by decide, by decide⟩,
    claim7_amended_separator_resets_only_parseDiff.1 initPD
      (lit "diff --git a/b b/b") (lit "a/b") (by decide) (by decide),
    claim7_amended_separator_resets_only_parseDiff.2.1 5
      (lit "diff --git a/b b/b") (by decide),
    claim7_amended_separator_resets_only_parseDiff.2.2 (5, 7)
      (lit "diff --git a/b b/b") (by decide)⟩

/-! ## Claim C8 -/

/-- C8: the line classifier is total — every line receives one of the four
tags without raising — and a line starting with none of ` `, `-`, `+` falls
into the catch-all branch (tagged `context` in the source's vocabulary,
playing the specification's `metadata` role), keeping its text intact; such
a line, when it is also not a `diff --git` or `@@` line, is completely
ignored by `parseDiff`'s loop: the state — records and all three counters —
is unchanged, so the line is excluded from the added/deleted/context
stream. -/
theorem claim8_unrecognized_line_is_metadata :
    (∀ l : Line, (parseDiffLine l).type = .normal ∨ (parseDiffLine l).type = .deleted
      ∨ (parseDiffLine l).type = .added ∨ (parseDiffLine l).type = .context)
    ∧ (∀ l : Line,
        startsWith (lit " ") l = false → startsWith (lit "-") l = false →
        startsWith (lit "+") l = false →
        parseDiffLine l = ⟨.context, l, none, none⟩)
    ∧ (∀ (s : PDState) (l : Line),
        startsWith (lit " ") l = false → startsWith (lit "-") l = false →
        startsWith (lit "+") l = false →
        startsWith (lit "diff --git") l = false → startsWith (lit "@@") l = false →
        parseDiffStep s l = .ok s) := by
  refine ⟨?_, ?_, ?_⟩
  · intro l
    unfold parseDiffLine
    repeat' split
    all_goals simp
  · intro l h1 h2 h3
    simp [parseDiffLine, h1, h2, h3]
  · intro s l h1 h2 h3 hdg hat
    by_cases hm : isMetaLine l = true
    · simp [parseDiffStep, hdg, hat, hm]
    · obtain ⟨files, cf, ch, rl⟩ := s
      cases ch <;> simp [parseDiffStep, hdg, hat, hm, h1, h2, h3]

/-- Witness for C8 at the unrecognized line `unrecognized junk`. -/
theorem claim8_unrecognized_line_is_metadata_witness :
    (startsWith (lit " ") (lit "unrecognized junk") = false
      ∧ startsWith (lit "-") (lit "unrecognized junk") = false
      ∧ startsWith (lit "+") (lit "unrecognized junk") = false
      ∧ startsWith (lit "diff --git") (lit "unrecognized junk") = false
      ∧ startsWith (lit "@@") (lit "unrecognized junk") = false)
    ∧ parseDiffLine (lit "unrecognized junk") =
        ⟨.context, lit "unrecognized junk", none, none⟩
    ∧ parseDiffStep initPD (lit "unrecognized junk") = .ok initPD :=
  ⟨⟨by decide, by decide, by decide, by decide, by decide⟩,
    claim8_unrecognized_line_is_metadata.2.1 (lit "unrecognized junk")
      (by decide) (by decide) (by decide),
    claim8_unrecognized_line_is_metadata.2.2 initPD (lit "unrecognized junk")
      (by decide) (by decide) (by decide) (by decide) (by decide)⟩

/-! ## Claim C9 -/

/-- C9 (counterexample): `parseDiff` applied to a multi-file patch whose
first file section carries the malformed hunk header `@@ bogus @@` throws,
producing no results at all — in particular none for the perfectly
well-formed second file, which parses fine on its own. -/
theorem claim9_counterexample_error_aborts_batch :
    parseDiffLines [lit "diff --git a/a b/a", lit "@@ bogus @@",
        lit "diff --git a/b b/b", lit "@@ -1,1 +1,1 @@", lit "+x"] =
      .error (lit "@@ bogus @@")
    ∧ parseDiffLines [lit "diff --git a/b b/b", lit "@@ -1,1 +1,1 @@", lit "+x"] =
        .ok [⟨lit "b", [⟨⟨1, 1, 1, 1⟩, [⟨.added, lit "x", none, some 1⟩], 0⟩],
          [⟨1, some 1, lit "x", .added⟩]⟩] :=
  ⟨rfl, rfl⟩

/-- C9 (amended): inside one `parseDiff` call over a multi-file patch
string, a malformed hunk header aborts the whole parse: whatever the
remaining lines (further files included) contain, the call returns the
error and no file receives results.  Isolation of one file's failure exists
only where the surrounding batch code parses each file's patch in a
separate call. -/
theorem claim9_amended_malformed_header_aborts_whole_parse (rest : List Line) :
    parseDiffGo initPD (lit "diff --git a/a b/a" :: lit "@@ bogus @@" :: rest) =
      .error (lit "@@ bogus @@") := rfl

/-! ## Claim C10 -/

/-- C10: the extractors are total functions returning a (possibly empty)
list — on the empty input string, whose split is the single empty line, both
return the empty list — and an `@@`-prefixed line that does not match the
hunk-header pattern is skipped: part_001 bumps only the physical-position
counter, leaving the new-file line counter and the output untouched, and
part_002 leaves its whole state untouched; neither ever invokes the
throwing `parseHunkHeader`. -/
theorem claim10_extractors_total_and_skip_malformed_headers :
    extractAddedLinesWithRelativeNumbers1 [] = []
    ∧ extractAddedLinesWithRelativeNumbers2 [] = []
    ∧ (∀ (s : Nat × Int) (l : Line), startsWith (lit "@@") l = true →
        searchNewStart l = none → step1 s l = ((s.1 + 1, s.2), []))
    ∧ (∀ (r : Nat) (l : Line), startsWith (lit "@@") l = true →
        step2 r l = (r, [])) := by
  refine ⟨rfl, rfl, ?_, ?_⟩
  · intro s l h1 h2
    simp [step1, h1, h2]
  · intro r l h1
    have hm : metaSkip2 l = true := by simp [metaSkip2, h1]
    simp [step2, hm]

/-- Witness for C10 at the malformed header line `@@ bogus`. -/
theorem claim10_extractors_total_and_skip_malformed_headers_witness :
    (startsWith (lit "@@") (lit "@@ bogus") = true
      ∧ searchNewStart (lit "@@ bogus") = none)
    ∧ step1 (3, 5) (lit "@@ bogus") = ((4, 5), [])
    ∧ step2 7 (lit "@@ bogus") = (7, []) :=
  ⟨⟨by decide, by decide⟩,
    claim10_extractors_total_and_skip_malformed_headers.2.2.1 (3, 5)
      (lit "@@ bogus") (by decide) (by decide),
    claim10_extractors_total_and_skip_malformed_headers.2.2.2 7
      (lit "@@ bogus") (by decide)⟩
